import Mathlib

/-!
Shallow embedding of the activity-ranking and aggregation core of
`nse_utils.py` (functions `calculate_activity_score`,
`get_top5_active_strikes`, and the open-interest totals / put-call-ratio
computation inside `format_option_chain_message`), together with proofs of
the specified properties of that core.

Modelling conventions:
* Numeric field values are exact rationals (`ℚ`); the data model of the
  specification says "non-negative number", and IEEE-754 rounding of the
  Python floats is abstracted away.
* A raw numeric field of a leg is `Option (Option ℚ)`: `none` means the key
  is absent from the mapping, `some none` means the key is present with a
  null value, and `some (some v)` means the numeric value `v`.
* The Python idiom `leg.get(field, 0) or 0` maps an absent key to the
  default `0`, a null to `0` (null is falsy), leaves `0` at `0`, and passes
  any other number through; this is `getNum` below.
* Python's `list.sort(key=..., reverse=True)` is a stable sort putting
  larger keys first; it is modelled by `List.mergeSort` with the boolean
  relation `scoreDescLe`, which is exactly a stable descending sort by the
  key component.
-/

/-- Coercion of a raw leg field to a number, modelling the source idiom
`leg.get(field, 0) or 0`: absent key, null value, and zero all become `0`;
any other number passes through unchanged. -/
def getNum (f : Option (Option ℚ)) : ℚ :=
  f.join.getD 0

/-- One option leg (the value of a `CE` or `PE` key of a strike row), with
the four numeric fields the scoring and aggregation code reads.  Each field
is raw: possibly absent, possibly null. -/
structure OptionLeg where
  openInterest : Option (Option ℚ)
  totalTradedVolume : Option (Option ℚ)
  totalBuyQuantity : Option (Option ℚ)
  totalSellQuantity : Option (Option ℚ)
  deriving DecidableEq, Repr

/-- One strike row of the option chain: the strike price, and the optional
`CE` and `PE` legs (`'CE' in row` / `'PE' in row` in the source). -/
structure StrikeRecord where
  strikePrice : ℚ
  CE : Option OptionLeg
  PE : Option OptionLeg
  deriving DecidableEq, Repr

/-- Embedding of `calculate_activity_score` (nse_utils.py lines 80-109):
start from `score = 0`, add the CE contribution when a `CE` leg is present,
then the PE contribution when a `PE` leg is present, each contribution being
`oi * 0.5 + volume * 0.3 + (buyQty + sellQty) * 0.2` with absent or null
fields coerced to `0` by `getNum`. -/
def calculate_activity_score (row : StrikeRecord) : ℚ :=
  let score : ℚ := 0
  let score : ℚ :=
    match row.CE with
    | none => score
    | some ce =>
      let ce_oi := getNum ce.openInterest
      let ce_volume := getNum ce.totalTradedVolume
      let ce_qty := getNum ce.totalBuyQuantity + getNum ce.totalSellQuantity
      score + (ce_oi * 0.5 + ce_volume * 0.3 + ce_qty * 0.2)
  let score : ℚ :=
    match row.PE with
    | none => score
    | some pe =>
      let pe_oi := getNum pe.openInterest
      let pe_volume := getNum pe.totalTradedVolume
      let pe_qty := getNum pe.totalBuyQuantity + getNum pe.totalSellQuantity
      score + (pe_oi * 0.5 + pe_volume * 0.3 + pe_qty * 0.2)
  score

/-- Comparison used to model `strikes_with_score.sort(key=lambda x: x[1],
reverse=True)`: element `a` may stay before `b` exactly when `b`'s score does
not exceed `a`'s.  A stable sort by this relation is exactly Python's stable
descending sort by the score component. -/
def scoreDescLe (a b : StrikeRecord × ℚ) : Bool :=
  decide (b.2 ≤ a.2)

/-- Embedding of the body of `get_top5_active_strikes` on a well-formed
`data` list, generalised over the slice length (the source fixes the slice
`[:5]`): pair every row with its activity score, stably sort the pairs by
score descending, take the first `topN`, and drop the scores. -/
def rankStrikes (rows : List StrikeRecord) (topN : ℕ) : List StrikeRecord :=
  let strikes_with_score := rows.map (fun row => (row, calculate_activity_score row))
  let sortedStrikes := strikes_with_score.mergeSort scoreDescLe
  (sortedStrikes.take topN).map (fun x => x.1)

/-- The shapes of the `option_chain_data` argument that
`get_top5_active_strikes` distinguishes:
* `missingData`: a falsy value (`None`, empty dict) or a mapping without a
  `data` key, so the guard on lines 128-129 returns `[]`;
* `malformedData`: a mapping whose `data` value is not a sequence of
  record-shaped mappings, so iterating or scoring raises inside the `try`
  and the handler on lines 147-149 returns `[]`;
* `chain rows`: a well-formed sequence of strike rows. -/
inductive SnapshotInput where
  | missingData : SnapshotInput
  | malformedData : SnapshotInput
  | chain : List StrikeRecord → SnapshotInput
  deriving DecidableEq

/-- Embedding of `get_top5_active_strikes` (nse_utils.py lines 112-149)
over the distinguished input shapes; on a well-formed chain it is
`rankStrikes` with the source's fixed slice length 5. -/
def get_top5_active_strikes : SnapshotInput → List StrikeRecord
  | SnapshotInput.missingData => []
  | SnapshotInput.malformedData => []
  | SnapshotInput.chain rows => rankStrikes rows 5

/-- Embedding of the totals loop of `format_option_chain_message`
(nse_utils.py lines 195-201): one pass over the rows accumulating
`total_ce_oi` and `total_pe_oi`, adding `openInterest` (absent or null
coerced to 0) of each present leg. -/
def oiTotals (rows : List StrikeRecord) : ℚ × ℚ :=
  rows.foldl
    (fun totals row =>
      let totals :=
        match row.CE with
        | some ce => (totals.1 + getNum ce.openInterest, totals.2)
        | none => totals
      match row.PE with
      | some pe => (totals.1, totals.2 + getNum pe.openInterest)
      | none => totals)
    (0, 0)

/-- Embedding of the Aggregate Reporter (nse_utils.py lines 195-203): the
two open-interest totals and the put-call quotient
`pcr = (total_pe_oi / total_ce_oi) if total_ce_oi else 0.0`. -/
def aggregate (rows : List StrikeRecord) : ℚ × ℚ × ℚ :=
  let t := oiTotals rows
  let pcr : ℚ := if t.1 = 0 then 0 else t.2 / t.1
  (t.1, t.2, pcr)

/-- Modelled from the spec (section 4.1): the per-leg scoring formula
`legScore = openInterest * 0.5 + totalTradedVolume * 0.3 +
(totalBuyQuantity + totalSellQuantity) * 0.2`, with null or absent fields
counting as 0.  Used to compare the spec's formula with the source. -/
def specLegScore (leg : OptionLeg) : ℚ :=
  getNum leg.openInterest * 0.5 + getNum leg.totalTradedVolume * 0.3
    + (getNum leg.totalBuyQuantity + getNum leg.totalSellQuantity) * 0.2

/-- Modelled from the spec (section 4.1): strike score = CE legScore + PE
legScore, a missing leg contributing 0. -/
def specStrikeScore (row : StrikeRecord) : ℚ :=
  (match row.CE with
   | some ce => specLegScore ce
   | none => 0)
  + (match row.PE with
     | some pe => specLegScore pe
     | none => 0)

/-- Modelled from the spec (section 4.2): the call-side open-interest total
as a plain sum over the chain, absent legs and fields counting 0. -/
def specTotalCallOI (rows : List StrikeRecord) : ℚ :=
  (rows.map (fun row =>
    match row.CE with
    | some ce => getNum ce.openInterest
    | none => 0)).sum

/-- Modelled from the spec (section 4.2): the put-side open-interest total
as a plain sum over the chain, absent legs and fields counting 0. -/
def specTotalPutOI (rows : List StrikeRecord) : ℚ :=
  (rows.map (fun row =>
    match row.PE with
    | some pe => getNum pe.openInterest
    | none => 0)).sum

/-- Normalisation of one raw field: replace an absent or null field by an
explicit numeric 0 (the ingestion-time coercion of spec section 9). -/
def normField (f : Option (Option ℚ)) : Option (Option ℚ) :=
  some (some (getNum f))

/-- Normalisation of a leg: every raw field coerced to an explicit number. -/
def normLeg (leg : OptionLeg) : OptionLeg :=
  { openInterest := normField leg.openInterest,
    totalTradedVolume := normField leg.totalTradedVolume,
    totalBuyQuantity := normField leg.totalBuyQuantity,
    totalSellQuantity := normField leg.totalSellQuantity }

/-- Normalisation of a strike row: both legs normalised when present. -/
def normRecord (row : StrikeRecord) : StrikeRecord :=
  { strikePrice := row.strikePrice, CE := row.CE.map normLeg, PE := row.PE.map normLeg }

/-- A raw field is non-negative when, if it carries an actual number, that
number is non-negative; absent and null fields impose no condition. -/
def FieldNonneg : Option (Option ℚ) → Prop
  | some (some v) => 0 ≤ v
  | _ => True

/-- All four numeric fields of a leg are non-negative in the sense of
`FieldNonneg`. -/
def LegFieldsNonneg (leg : OptionLeg) : Prop :=
  FieldNonneg leg.openInterest ∧ FieldNonneg leg.totalTradedVolume
    ∧ FieldNonneg leg.totalBuyQuantity ∧ FieldNonneg leg.totalSellQuantity

/-- Every leg present in the row has non-negative numeric fields (the
data-model requirement of spec section 3). -/
def RecordFieldsNonneg (row : StrikeRecord) : Prop :=
  (match row.CE with
   | some ce => LegFieldsNonneg ce
   | none => True)
  ∧ (match row.PE with
     | some pe => LegFieldsNonneg pe
     | none => True)

/-- Witness leg: one numeric field, one null field, one absent field, one
more numeric field. -/
def w8leg : OptionLeg :=
  { openInterest := some (some 1000), totalTradedVolume := some none,
    totalBuyQuantity := none, totalSellQuantity := some (some 50) }

/-- Witness row: a CE-only strike with the witness leg. -/
def w8row : StrikeRecord := { strikePrice := 150, CE := some w8leg, PE := none }

/-- Counterexample leg: open interest 1, every other field absent. -/
def unitLeg : OptionLeg :=
  { openInterest := some (some 1), totalTradedVolume := none,
    totalBuyQuantity := none, totalSellQuantity := none }

/-- Counterexample strike: both legs present with open interest 1 each. -/
def pairStrike : StrikeRecord := { strikePrice := 100, CE := some unitLeg, PE := some unitLeg }

/-- Counterexample chain: a single strike with call and put open interest 1. -/
def chainA : List StrikeRecord := [pairStrike]

/-- Counterexample strike at a different price level: both legs present with
open interest 1 each. -/
def pairStrike2 : StrikeRecord := { strikePrice := 200, CE := some unitLeg, PE := some unitLeg }

/-- Second counterexample chain, disjoint from `chainA`: it holds only the
strike at price 200, while `chainA` holds only the strike at price 100. -/
def chainB : List StrikeRecord := [pairStrike2]

/-- CE leg of the section-8 example strike 100. -/
def leg100CE : OptionLeg :=
  { openInterest := some (some 1000), totalTradedVolume := some (some 500),
    totalBuyQuantity := some (some 100), totalSellQuantity := some (some 50) }

/-- The section-8 example strike 100 (CE leg only). -/
def strike100 : StrikeRecord := { strikePrice := 100, CE := some leg100CE, PE := none }

/-- PE leg of the section-8 example strike 200. -/
def leg200PE : OptionLeg :=
  { openInterest := some (some 2000), totalTradedVolume := some (some 100),
    totalBuyQuantity := some (some 10), totalSellQuantity := some (some 10) }

/-- The section-8 example strike 200 (PE leg only). -/
def strike200 : StrikeRecord := { strikePrice := 200, CE := none, PE := some leg200PE }

/-- The two-strike example chain of spec section 8. -/
def demoChain : List StrikeRecord := [strike100, strike200]

/-- The sort comparison is transitive. -/
theorem scoreDescLe_trans (a b c : StrikeRecord × ℚ) :
    scoreDescLe a b → scoreDescLe b c → scoreDescLe a c := by
  simp only [scoreDescLe, decide_eq_true_eq]
  exact fun h1 h2 => le_trans h2 h1

/-- The sort comparison is total. -/
theorem scoreDescLe_total (a b : StrikeRecord × ℚ) :
    scoreDescLe a b || scoreDescLe b a := by
  simp only [scoreDescLe, Bool.or_eq_true, decide_eq_true_eq]
  exact le_total b.2 a.2

/-- Every pair built by the ranking loop carries the score of its row. -/
theorem snd_of_mem_paired {rows : List StrikeRecord} {p : StrikeRecord × ℚ}
    (h : p ∈ rows.map (fun row => (row, calculate_activity_score row))) :
    p.2 = calculate_activity_score p.1 := by
  obtain ⟨r, _, rfl⟩ := List.mem_map.mp h
  rfl

/-- The ranked output is pairwise sorted by activity score descending. -/
theorem rankStrikes_sorted (rows : List StrikeRecord) (n : ℕ) :
    (rankStrikes rows n).Pairwise
      (fun a b => calculate_activity_score b ≤ calculate_activity_score a) := by
  unfold rankStrikes
  set l := rows.map (fun row => (row, calculate_activity_score row)) with hl
  have hsorted : (l.mergeSort scoreDescLe).Pairwise (fun a b => scoreDescLe a b) :=
    List.sorted_mergeSort scoreDescLe_trans scoreDescLe_total l
  have htake : ((l.mergeSort scoreDescLe).take n).Pairwise (fun a b => scoreDescLe a b) :=
    hsorted.sublist (List.take_sublist n _)
  rw [List.pairwise_map]
  refine htake.imp_of_mem ?_
  intro a b ha hb hab
  have ha' : a ∈ l := List.mem_mergeSort.mp ((List.take_sublist n _).mem ha)
  have hb' : b ∈ l := List.mem_mergeSort.mp ((List.take_sublist n _).mem hb)
  have ha2 := snd_of_mem_paired ha'
  have hb2 := snd_of_mem_paired hb'
  simp only [scoreDescLe, decide_eq_true_eq] at hab
  rw [← ha2, ← hb2]
  exact hab

/-- The ranked output has exactly `min topN |rows|` elements. -/
theorem rankStrikes_length (rows : List StrikeRecord) (n : ℕ) :
    (rankStrikes rows n).length = min n rows.length := by
  unfold rankStrikes
  simp

/-- Stability of the modelled sort, as a filter identity: the pairs whose
row has a given score appear in the sorted list exactly as they appear in
the input, in the same order. -/
theorem mergeSort_filter_score (rows : List StrikeRecord) (s : ℚ) :
    ((rows.map (fun row => (row, calculate_activity_score row))).mergeSort scoreDescLe).filter
        (fun p => decide (calculate_activity_score p.1 = s))
      = (rows.map (fun row => (row, calculate_activity_score row))).filter
        (fun p => decide (calculate_activity_score p.1 = s)) := by
  set l := rows.map (fun row => (row, calculate_activity_score row)) with hl
  set q : StrikeRecord × ℚ → Bool := fun p => decide (calculate_activity_score p.1 = s) with hq
  have hpair : (l.filter q).Pairwise (fun a b => scoreDescLe a b) := by
    apply List.pairwise_of_forall_mem_list
    intro a ha b hb
    have ha' : a ∈ l := List.mem_of_mem_filter ha
    have hb' : b ∈ l := List.mem_of_mem_filter hb
    have ha2 := snd_of_mem_paired ha'
    have hb2 := snd_of_mem_paired hb'
    have has : calculate_activity_score a.1 = s := by
      have := List.of_mem_filter ha
      simpa [hq] using this
    have hbs : calculate_activity_score b.1 = s := by
      have := List.of_mem_filter hb
      simpa [hq] using this
    simp only [scoreDescLe, decide_eq_true_eq]
    rw [ha2, hb2, has, hbs]
  have hsub : List.Sublist (l.filter q) (l.mergeSort scoreDescLe) :=
    List.sublist_mergeSort scoreDescLe_trans scoreDescLe_total hpair (List.filter_sublist l)
  have hself : (l.filter q).filter q = l.filter q := by
    rw [List.filter_eq_self]
    intro a ha
    exact List.of_mem_filter ha
  have hsub2 : List.Sublist (l.filter q) ((l.mergeSort scoreDescLe).filter q) := by
    have h3 := hsub.filter q
    rw [hself] at h3
    exact h3
  have hperm : List.Perm ((l.mergeSort scoreDescLe).filter q) (l.filter q) :=
    (List.mergeSort_perm l scoreDescLe).filter q
  exact (hsub2.eq_of_length hperm.length_eq.symm).symm

/-- The rows of a given score that survive into the ranked output are an
initial segment, in order, of the rows of that score in the input chain. -/
theorem rankStrikes_filter_score (rows : List StrikeRecord) (n : ℕ) (s : ℚ) :
    ∃ rest,
      (rankStrikes rows n).filter (fun r => decide (calculate_activity_score r = s)) ++ rest
        = rows.filter (fun r => decide (calculate_activity_score r = s)) := by
  set P : StrikeRecord → Bool := fun r => decide (calculate_activity_score r = s) with hP
  set l := rows.map (fun row => (row, calculate_activity_score row)) with hl
  set sortedStrikes := l.mergeSort scoreDescLe with hsorted
  have hrank : rankStrikes rows n = (sortedStrikes.take n).map (fun x => x.1) := rfl
  have hmapfst : l.map (fun x : StrikeRecord × ℚ => x.1) = rows := by
    rw [hl, List.map_map]
    exact List.map_id'' (fun x => rfl) rows
  have hQ : ∀ x : List (StrikeRecord × ℚ),
      (x.map (fun p : StrikeRecord × ℚ => p.1)).filter P
        = (x.filter (fun p : StrikeRecord × ℚ => P p.1)).map (fun p => p.1) := by
    intro x
    exact List.filter_map (fun p : StrikeRecord × ℚ => p.1) x
  refine ⟨((sortedStrikes.drop n).filter (fun p => P p.1)).map (fun p => p.1), ?_⟩
  rw [hrank, hQ, ← List.map_append, ← List.filter_append, List.take_append_drop]
  rw [← hmapfst, hQ]
  congr 1
  exact mergeSort_filter_score rows s

/-- Every row in the ranked output is a row of the input chain. -/
theorem rankStrikes_mem (rows : List StrikeRecord) (n : ℕ) :
    ((rankStrikes rows n).all (fun r => decide (r ∈ rows))) = true := by
  rw [List.all_eq_true]
  intro r hr
  rw [decide_eq_true_eq]
  unfold rankStrikes at hr
  simp only [List.mem_map] at hr
  obtain ⟨p, hp, rfl⟩ := hr
  have hp2 : p ∈ (rows.map (fun row => (row, calculate_activity_score row))).mergeSort scoreDescLe :=
    (List.take_sublist n _).mem hp
  rw [List.mem_mergeSort] at hp2
  obtain ⟨r0, hr0, rfl⟩ := List.mem_map.mp hp2
  exact hr0

/-- Accumulator form of the totals loop: folding from `(a, b)` adds the
call and put open-interest sums of the rows to `a` and `b` respectively. -/
theorem oiTotals_go (rows : List StrikeRecord) (a b : ℚ) :
    rows.foldl
      (fun totals row =>
        let totals :=
          match row.CE with
          | some ce => (totals.1 + getNum ce.openInterest, totals.2)
          | none => totals
        match row.PE with
        | some pe => (totals.1, totals.2 + getNum pe.openInterest)
        | none => totals)
      (a, b)
      = (a + specTotalCallOI rows, b + specTotalPutOI rows) := by
  induction rows generalizing a b with
  | nil => simp [specTotalCallOI, specTotalPutOI]
  | cons row rest ih =>
    simp only [List.foldl_cons]
    rcases hCE : row.CE with _ | ce <;> rcases hPE : row.PE with _ | pe <;>
      simp only [ih, specTotalCallOI, specTotalPutOI, List.map_cons, List.sum_cons, hCE, hPE] <;>
      ring_nf

/-- The one-pass totals loop computes exactly the two open-interest sums. -/
theorem oiTotals_eq_spec (rows : List StrikeRecord) :
    oiTotals rows = (specTotalCallOI rows, specTotalPutOI rows) := by
  unfold oiTotals
  rw [oiTotals_go]
  simp

/-- The source's incremental score equals the spec's per-leg sum formula. -/
theorem score_eq_spec (row : StrikeRecord) :
    calculate_activity_score row = specStrikeScore row := by
  unfold calculate_activity_score specStrikeScore specLegScore
  rcases row.CE with _ | ce <;> rcases row.PE with _ | pe <;> simp

/-- Normalising a raw field does not change its numeric reading. -/
theorem getNum_normField (f : Option (Option ℚ)) : getNum (normField f) = getNum f := by
  simp [normField, getNum, Option.join]

/-- The activity score is invariant under ingestion-time normalisation of
absent and null fields to explicit zeros. -/
theorem score_norm (row : StrikeRecord) :
    calculate_activity_score (normRecord row) = calculate_activity_score row := by
  unfold calculate_activity_score normRecord
  rcases row.CE with _ | ce <;> rcases row.PE with _ | pe <;>
    simp [normLeg, getNum_normField]

/-- A non-negative raw field reads as a non-negative number. -/
theorem getNum_nonneg_of_fieldNonneg (f : Option (Option ℚ)) (h : FieldNonneg f) :
    0 ≤ getNum f := by
  rcases f with _ | g
  · simp [getNum, Option.join]
  · rcases g with _ | v
    · simp [getNum, Option.join]
    · simpa [getNum, Option.join, FieldNonneg] using h

/-- A leg with non-negative fields contributes a non-negative amount. -/
theorem legContribution_nonneg (leg : OptionLeg) (h : LegFieldsNonneg leg) :
    0 ≤ getNum leg.openInterest * 0.5 + getNum leg.totalTradedVolume * 0.3
      + (getNum leg.totalBuyQuantity + getNum leg.totalSellQuantity) * 0.2 := by
  obtain ⟨h1, h2, h3, h4⟩ := h
  have g1 := getNum_nonneg_of_fieldNonneg _ h1
  have g2 := getNum_nonneg_of_fieldNonneg _ h2
  have g3 := getNum_nonneg_of_fieldNonneg _ h3
  have g4 := getNum_nonneg_of_fieldNonneg _ h4
  positivity

/-- C1: for every strike record, the activity score returned by
`calculate_activity_score` equals the sum, over the CE and PE legs present
in the record, of `openInterest*0.5 + totalTradedVolume*0.3 +
(totalBuyQuantity + totalSellQuantity)*0.2`, where null or absent numeric
fields count as 0 and an absent leg contributes 0; a record with neither a
CE nor a PE leg scores exactly 0. -/
theorem claim_C1 (row : StrikeRecord) (p : ℚ) :
    calculate_activity_score row = specStrikeScore row ∧
    calculate_activity_score { strikePrice := p, CE := none, PE := none } = 0 :=
  ⟨score_eq_spec row, rfl⟩

/-- C2: for every snapshot, the sequence returned by the Ranker is sorted in
descending order of activity score: every pair of returned strikes, in
particular every adjacent pair, satisfies `score[i] >= score[i+1]`; the same
holds for the generalised `rankStrikes` at any requested count. -/
theorem claim_C2 (inp : SnapshotInput) (rows : List StrikeRecord) (n : ℕ) :
    (get_top5_active_strikes inp).Pairwise
      (fun a b => calculate_activity_score b ≤ calculate_activity_score a) ∧
    (rankStrikes rows n).Pairwise
      (fun a b => calculate_activity_score b ≤ calculate_activity_score a) := by
  refine ⟨?_, rankStrikes_sorted rows n⟩
  cases inp with
  | missingData => simp [get_top5_active_strikes]
  | malformedData => simp [get_top5_active_strikes]
  | chain rows2 => exact rankStrikes_sorted rows2 5

/-- C3: for every chain and requested count `topN`, `rankStrikes` returns
exactly `min topN |chain|` elements, the empty chain yields the empty
sequence rather than an error, and the code's fixed instance
`get_top5_active_strikes` returns `min 5 |chain|` elements. -/
theorem claim_C3 (rows : List StrikeRecord) (n : ℕ) :
    (rankStrikes rows n).length = min n rows.length ∧
    rankStrikes ([] : List StrikeRecord) n = [] ∧
    (get_top5_active_strikes (SnapshotInput.chain rows)).length = min 5 rows.length :=
  ⟨rankStrikes_length rows n, by simp [rankStrikes], rankStrikes_length rows 5⟩

/-- C4: for every snapshot, the Aggregate Reporter's put/call quotient
equals `totalPutOpenInterest / totalCallOpenInterest` whenever the call
total is nonzero and equals 0 whenever the call total is 0, regardless of
the put total; the call and put totals are the sums of `openInterest` over
the CE and PE legs present in the chain, absent legs or null fields
counting 0. -/
theorem claim_C4 (rows : List StrikeRecord) :
    (aggregate rows).1 = specTotalCallOI rows ∧
    (aggregate rows).2.1 = specTotalPutOI rows ∧
    (aggregate rows).2.2 =
      (if specTotalCallOI rows = 0 then 0 else specTotalPutOI rows / specTotalCallOI rows) := by
  unfold aggregate
  rw [oiTotals_eq_spec]
  exact ⟨rfl, rfl, rfl⟩

/-- C5: the scoring and ranking functions are total over the documented
input shape; null or absent numeric fields are treated as 0 before
multiplication, so replacing every absent or null field by an explicit 0
leaves the activity score unchanged, and both a missing and a null field
read as 0. -/
theorem claim_C5 (row : StrikeRecord) :
    calculate_activity_score (normRecord row) = calculate_activity_score row ∧
    getNum none = 0 ∧ getNum (some none) = 0 :=
  ⟨score_norm row, rfl, rfl⟩

/-- C6: contrary to the claim, the Ranker does not fail fast on a
structurally invalid snapshot: both the missing-`data` guard and the
caught exception for a malformed `data` value return the empty sequence,
which is exactly the output on a legitimately empty chain, so the two
situations are indistinguishable to the caller. -/
theorem claim_C6 :
    get_top5_active_strikes SnapshotInput.malformedData = [] ∧
    get_top5_active_strikes SnapshotInput.missingData = [] ∧
    get_top5_active_strikes SnapshotInput.malformedData
      = get_top5_active_strikes (SnapshotInput.chain []) := by
  refine ⟨rfl, rfl, ?_⟩
  simp [get_top5_active_strikes, rankStrikes]

/-- C7 counterexample: `chainA` and `chainB` are disjoint snapshots — they
share no row, and their strike price sets are distinct (100 versus 200) —
yet aggregating their concatenation does not equal the component-wise sum
of the two aggregate triples, because the quotient component is not
additive: each chain has triple (1, 1, 1), the concatenation has triple
(2, 2, 1), but the component-wise sum is (2, 2, 2). -/
theorem claim_C7_counterexample :
    List.Disjoint chainA chainB ∧
    pairStrike.strikePrice ≠ pairStrike2.strikePrice ∧
    ¬ (aggregate (chainA ++ chainB)
        = ((aggregate chainA).1 + (aggregate chainB).1,
           (aggregate chainA).2.1 + (aggregate chainB).2.1,
           (aggregate chainA).2.2 + (aggregate chainB).2.2)) := by
  have hprice : pairStrike.strikePrice ≠ pairStrike2.strikePrice := by
    norm_num [pairStrike, pairStrike2]
  have hne : pairStrike ≠ pairStrike2 := by
    intro h
    exact hprice (congrArg StrikeRecord.strikePrice h)
  have hdisj : List.Disjoint chainA chainB := by
    simp only [chainA, chainB, List.disjoint_singleton, List.mem_singleton]
    exact Ne.symm hne
  have h1 : aggregate chainA = (1, 1, 1) := by
    norm_num [aggregate, oiTotals, chainA, pairStrike, unitLeg, getNum, Option.join, List.foldl]
  have h2 : aggregate chainB = (1, 1, 1) := by
    norm_num [aggregate, oiTotals, chainB, pairStrike2, unitLeg, getNum, Option.join, List.foldl]
  have h3 : aggregate (chainA ++ chainB) = (2, 2, 1) := by
    norm_num [aggregate, oiTotals, chainA, chainB, pairStrike, pairStrike2, unitLeg, getNum,
      Option.join, List.foldl]
  refine ⟨hdisj, hprice, ?_⟩
  rw [h1, h2, h3]
  simp [Prod.ext_iff]

/-- C7 (amended): for every two snapshots A and B, aggregating their
concatenation sums the call and put open-interest totals component-wise;
the derived third component is not additive but is recomputed from the
summed totals by the zero-guarded quotient. -/
theorem claim_C7 (A B : List StrikeRecord) :
    (aggregate (A ++ B)).1 = (aggregate A).1 + (aggregate B).1 ∧
    (aggregate (A ++ B)).2.1 = (aggregate A).2.1 + (aggregate B).2.1 ∧
    (aggregate (A ++ B)).2.2 =
      (if (aggregate A).1 + (aggregate B).1 = 0 then 0
       else ((aggregate A).2.1 + (aggregate B).2.1) / ((aggregate A).1 + (aggregate B).1)) := by
  have hcall : specTotalCallOI (A ++ B) = specTotalCallOI A + specTotalCallOI B := by
    simp [specTotalCallOI]
  have hput : specTotalPutOI (A ++ B) = specTotalPutOI A + specTotalPutOI B := by
    simp [specTotalPutOI]
  unfold aggregate
  rw [oiTotals_eq_spec, oiTotals_eq_spec, oiTotals_eq_spec, hcall, hput]
  simp

/-- C8: for every strike record whose present numeric fields are
non-negative, the computed activity score is non-negative; missing fields
are treated as 0, never as a negative value. -/
theorem claim_C8 (row : StrikeRecord) (h : RecordFieldsNonneg row) :
    0 ≤ calculate_activity_score row := by
  rw [score_eq_spec]
  unfold specStrikeScore
  obtain ⟨hCE, hPE⟩ := h
  apply add_nonneg
  · rcases hce : row.CE with _ | ce
    · simp
    · rw [hce] at hCE
      simpa [specLegScore] using legContribution_nonneg ce hCE
  · rcases hpe : row.PE with _ | pe
    · simp
    · rw [hpe] at hPE
      simpa [specLegScore] using legContribution_nonneg pe hPE

/-- C8 witness: a concrete CE-only record with a numeric, a null and an
absent field satisfies the non-negativity hypothesis and scores at least 0. -/
theorem claim_C8_witness :
    RecordFieldsNonneg w8row ∧ 0 ≤ calculate_activity_score w8row :=
  have h : RecordFieldsNonneg w8row := by
    constructor
    · show LegFieldsNonneg w8leg
      refine ⟨?_, ?_, ?_, ?_⟩ <;> simp [FieldNonneg, w8leg]
    · trivial
  ⟨h, claim_C8 w8row h⟩

/-- C9: on the two-strike example chain of spec section 8, the CE leg score
of strike 100 is 680, the PE leg score of strike 200 is 1034, the ranked
result is strike 200 followed by strike 100, and the aggregate triple is
(1000, 2000, 2). -/
theorem claim_C9 :
    specLegScore leg100CE = 680 ∧
    specLegScore leg200PE = 1034 ∧
    calculate_activity_score strike100 = 680 ∧
    calculate_activity_score strike200 = 1034 ∧
    rankStrikes demoChain 5 = [strike200, strike100] ∧
    get_top5_active_strikes (SnapshotInput.chain demoChain) = [strike200, strike100] ∧
    aggregate demoChain = (1000, 2000, 2) := by
  have h1 : calculate_activity_score strike100 = 680 := by
    norm_num [calculate_activity_score, getNum, leg100CE, strike100, Option.join]
  have h2 : calculate_activity_score strike200 = 1034 := by
    norm_num [calculate_activity_score, getNum, leg200PE, strike200, Option.join]
  have h3 : rankStrikes demoChain 5 = [strike200, strike100] := by
    simp [rankStrikes, demoChain, List.mergeSort, List.merge, scoreDescLe, h1, h2]
    norm_num
  refine ⟨?_, ?_, h1, h2, h3, h3, ?_⟩
  · norm_num [specLegScore, getNum, leg100CE, Option.join]
  · norm_num [specLegScore, getNum, leg200PE, Option.join]
  · norm_num [aggregate, oiTotals, demoChain, strike100, strike200, leg100CE, leg200PE, getNum,
      Option.join, List.foldl]

/-- C10: the sort used by the Ranker is stable, so strikes with equal
activity scores appear in the output in their original relative order (the
output rows of any given score are an initial segment of the input rows of
that score), ties are broken by original position, and every returned
element is one of the input's rows; `get_top5_active_strikes` is the
`topN = 5` instance of the generalised ranking. -/
theorem claim_C10 (rows : List StrikeRecord) (n : ℕ) (s : ℚ) :
    get_top5_active_strikes (SnapshotInput.chain rows) = rankStrikes rows 5 ∧
    (∃ rest,
      (rankStrikes rows n).filter (fun r => decide (calculate_activity_score r = s)) ++ rest
        = rows.filter (fun r => decide (calculate_activity_score r = s))) ∧
    ((rankStrikes rows n).all (fun r => decide (r ∈ rows))) = true :=
  ⟨rfl, rankStrikes_filter_score rows n s, rankStrikes_mem rows n⟩
